import Mathlib

/-!
Verification development for the grad-visit-scheduler repository.

The Python sources are shallowly embedded below.  Pure helpers of
`core.py` (movement configuration, the MILP constraint/objective
expressions, the external-faculty bookkeeping, the limited-availability
setter, and the top-N no-good-cut enumeration loop) become Lean
functions over explicit state values; the external MILP solver is
abstracted as an oracle satisfying the feasibility/optimality contract
stated in the specification.  Slot labels are represented by their
parsed absolute minute intervals `(start, end)`.

Functions of the repository that are referenced by its tests and its
package exports but whose bodies are absent from the sources we hold
(`compute_min_travel_lags`, the `nonoverlap_time` movement policy, the
`travel_slots = auto` derivation, and the shifted-clock warning for
policy `none`) are modelled from the specification; each such
definition carries a doc comment starting with `Modelled from the
spec:`.
-/

namespace GradVisit

/-- An absolute time window in minutes, half-open: `(start, end)`.
`slot2min` in `core.py` converts a label `"H:MM-H:MM"` to such a pair. -/
abbrev Interval := ℕ × ℕ

/-- A location grid: ordered association list of building name to the
per-slot absolute intervals of that building (all the same length). -/
abbrev Grid := List (String × List Interval)

/-- A travel-lag matrix, shaped like `Scheduler.travel_slots`:
row building name to list of (destination building name, lag). -/
abbrev LagMatrix := List (String × List (String × ℕ))

/-- Modelled from the spec: the half-open overlap test between a forward
cross-building transition from slot `i` (0-based) of grid `f` to a later
slot `j` of grid `t`, with a buffer in minutes: the destination interval
starts before the origin interval ends plus the buffer
(spec section 4.1: "To[j] starts before From[i]'s end plus buffer";
section 3: "Two slot intervals overlap if start_to < end_from"). -/
def overlapsAt (f t : List Interval) (buf i j : ℕ) : Prop :=
  i < j ∧ i < f.length ∧ j < t.length ∧
    (t.getD j (0, 0)).1 < (f.getD i (0, 0)).2 + buf

instance (f t : List Interval) (buf i j : ℕ) : Decidable (overlapsAt f t buf i j) :=
  inferInstanceAs (Decidable (i < j ∧ i < f.length ∧ j < t.length ∧
    (t.getD j (0, 0)).1 < (f.getD i (0, 0)).2 + buf))

/-- Modelled from the spec: the slot-index differences `j - i` of all
overlapping forward transitions between two buildings ("enumerate all
forward transitions, find any that would produce a real-time overlap",
spec section 4.1). -/
def overlapDiffs (f t : List Interval) (buf : ℕ) : List ℕ :=
  (List.range f.length).flatMap (fun i =>
    ((List.range t.length).filter (fun j => decide (overlapsAt f t buf i j))).map
      (fun j => j - i))

/-- Modelled from the spec: the travel-lag derivation of
`compute_min_travel_lags` for one ordered building pair, absent from the
sources we hold.  Following spec section 8 ("for any location pair with
positive derived lag L, there exists a slot-index pair exactly L apart
whose absolute intervals overlap") and the repository tests
(`test_movement_nonoverlap.py`), the lag is the maximum `j - i` over
overlapping forward transitions, `0` when none overlap. -/
def minTravelLagPair (f t : List Interval) (buf : ℕ) : ℕ :=
  (overlapDiffs f t buf).foldr max 0

/-- A lag `L` blocks every overlapping forward transition between the two
buildings: each overlap difference is at most `L` (the model forbids
presence at the destination within `(t, t+L]` of presence at the origin). -/
def blocksAllOverlaps (f t : List Interval) (buf L : ℕ) : Prop :=
  ∀ d ∈ overlapDiffs f t buf, d ≤ L

instance (f t : List Interval) (buf L : ℕ) : Decidable (blocksAllOverlaps f t buf L) :=
  inferInstanceAs (Decidable (∀ d ∈ overlapDiffs f t buf, d ≤ L))

/-- Bounded linear search: the first `k` in `start, start+1, ...` with
`p k = true`, trying `fuel` candidates; returns the candidate after the
last tried one when all fail. -/
def firstSuchThat (p : ℕ → Bool) : ℕ → ℕ → ℕ
  | 0, start => start
  | fuel + 1, start => if p start then start else firstSuchThat p fuel (start + 1)

/-- Modelled from the spec: the dedicated non-overlap-derived lag for one
ordered building pair, written from the data-model words of spec
section 3: "the minimum integer slot lag guaranteeing no two assigned
meetings in different locations have overlapping absolute time windows",
that is, the least `L` such that every overlapping forward transition
has `j - i ≤ L`. -/
def nonoverlapLagPair (f t : List Interval) (buf : ℕ) : ℕ :=
  firstSuchThat (fun L => decide (blocksAllOverlaps f t buf L)) (t.length + 1) 0

/-- Build a full travel-lag matrix from a per-pair derivation, with a zero
diagonal, shaped like `Scheduler.travel_slots`. -/
def lagMatrixWith (pairFn : List Interval → List Interval → ℕ → ℕ)
    (grid : Grid) (buf : ℕ) : LagMatrix :=
  grid.map (fun p =>
    (p.1, grid.map (fun q => (q.1, if p.1 = q.1 then 0 else pairFn p.2 q.2 buf))))

/-- Modelled from the spec: `compute_min_travel_lags` (exported by
`__init__.py` but absent from the sources we hold), the auto derivation
used by movement policy `travel_time` with `travel_slots = "auto"`. -/
def computeMinTravelLags (grid : Grid) (buf : ℕ) : LagMatrix :=
  lagMatrixWith minTravelLagPair grid buf

/-- Modelled from the spec: the lag matrix of the dedicated
`nonoverlap_time` movement policy, derived pairwise from the
minimum-lag-guaranteeing-no-overlap characterization of spec section 3. -/
def nonoverlapDerivedLags (grid : Grid) (buf : ℕ) : LagMatrix :=
  lagMatrixWith nonoverlapLagPair grid buf

/-- The `travel_slots` entry of a movement configuration: an explicit
matrix, or the `"auto"` token, mirrored from the run-config schema. -/
inductive TravelSpec where
  | autoDerive : TravelSpec
  | explicitMatrix : LagMatrix → TravelSpec

/-- The zero matrix used by `_configure_movement` for non-travel policies
(`core.py` line 798). -/
def zeroLagMatrix (grid : Grid) : LagMatrix :=
  grid.map (fun p => (p.1, grid.map (fun q => (q.1, 0))))

/-- The historical default travel matrix of `_configure_movement`
(`core.py` line 781): zero diagonal, one slot of lag between distinct
buildings. -/
def defaultTravelMatrix (grid : Grid) : LagMatrix :=
  grid.map (fun p =>
    (p.1, grid.map (fun q => (q.1, if p.1 = q.1 then 0 else 1))))

/-- Validation of an explicit travel matrix, mirroring `_configure_movement`
(`core.py` lines 782-796): every building needs a row, every row needs
every destination; entries are naturals, hence nonnegative. -/
def validateExplicitTravel (grid : Grid) (m : LagMatrix) : Except String LagMatrix :=
  if grid.all (fun p =>
      match m.lookup p.1 with
      | none => false
      | some row => grid.all (fun q => (row.lookup q.1).isSome)) then
    Except.ok (grid.map (fun p =>
      (p.1, grid.map (fun q =>
        (q.1, ((m.lookup p.1).getD []).lookup q.1 |>.getD 0)))))
  else
    Except.error "movement.travel_slots is missing a row or destination"

/-- Movement configuration, mirroring `_configure_movement` (`core.py`
lines 763-798) for the `none` and `travel_time` policies, extended —
modelled from the spec and the repository tests — with the
`travel_slots = "auto"` derivation and the dedicated `nonoverlap_time`
policy (an alias of `travel_time` + `auto` that rejects explicit
matrices), both absent from the sources we hold.  Returns the normalized
travel-lag matrix. -/
def configureMovement (grid : Grid) (policy : String) (spec : Option TravelSpec)
    (buf : ℕ) : Except String LagMatrix :=
  if policy = "none" then
    Except.ok (zeroLagMatrix grid)
  else if policy = "travel_time" then
    match spec with
    | none => Except.ok (defaultTravelMatrix grid)
    | some TravelSpec.autoDerive => Except.ok (computeMinTravelLags grid buf)
    | some (TravelSpec.explicitMatrix m) => validateExplicitTravel grid m
  else if policy = "nonoverlap_time" then
    match spec with
    | some (TravelSpec.explicitMatrix _) =>
        Except.error "movement.travel_slots must be omitted for the nonoverlap_time policy"
    | _ => Except.ok (nonoverlapDerivedLags grid buf)
  else
    Except.error "Unsupported movement policy"

/-- Modelled from the spec: the at-risk location pairs reported when two
or more locations have non-identical absolute slot windows (spec
section 4.3), absent from the sources we hold: every ordered pair of a
building and a later-listed building whose parsed slot windows differ. -/
def atRiskPairs : Grid → List (String × String)
  | [] => []
  | p :: rest =>
      (rest.filter (fun q => decide (q.2 ≠ p.2))).map (fun q => (p.1, q.1))
        ++ atRiskPairs rest

/-- Modelled from the spec: the non-fatal shifted-clock warning of movement
policy `none` (spec section 4.3: "emit a non-fatal warning enumerating
at-risk location pairs"), absent from the sources we hold.  `some pairs`
means the warning is emitted naming those pairs; `none` means no
warning.  The policy string defaults to `"none"` upstream. -/
def movementNoneWarning (grid : Grid) (policy : String) : Option (List (String × String)) :=
  if policy = "none" ∧ atRiskPairs grid ≠ [] then some (atRiskPairs grid) else none

/-- Legacy building sequencing modes, mirroring the `Mode` enum of
`core.py` lines 35-40. -/
inductive Mode where
  | buildingAFirst : Mode
  | buildingBFirst : Mode
  | noOffset : Mode
deriving DecidableEq

/-- Whether legacy `NO_OFFSET` break enforcement is implied, mirroring
`_configure_movement` (`core.py` lines 728-761): the default is `false`,
and only the legacy `NO_OFFSET` branch — taken when a mode is given and
no movement configuration is — sets it to `true`. -/
def requireBreakConstraintsDefault (mode : Option Mode) (movementProvided : Bool) : Bool :=
  match mode, movementProvided with
  | some Mode.noOffset, false => true
  | _, _ => false

/-- The break-slot guard at the top of `_build_model` (`core.py` lines
1290-1293): when break constraints are required (legacy default or the
`enforce_breaks` argument) and no break slots are configured, model
construction fails fatally. -/
def buildModelBreakCheck (requireDefault enforceBreaks : Bool)
    (breakTimes : List ℕ) : Except String Unit :=
  if requireDefault || enforceBreaks then
    if breakTimes.length = 0 then Except.error "Must specify some break times!"
    else Except.ok ()
  else Except.ok ()

/-- Total meeting count of one host across all visitors and slots,
mirroring the sums of `core.py` lines 1324, 1328 and 1353. -/
def totalMeetings (y : ℕ → ℕ → ℕ → ℚ) (visitors slots : List ℕ) (f : ℕ) : ℚ :=
  (visitors.map (fun s => (slots.map (fun t => y s f t)).sum)).sum

/-- The too-many-meetings linearization constraint generated per host,
mirroring `count_faculty_too_many_meetings` (`core.py` lines 1350-1353):
`2 * flag_f >= total_meetings_f - max_visitors + 2`. -/
def countFacultyTooManyMeetings (y : ℕ → ℕ → ℕ → ℚ) (visitors slots : List ℕ)
    (maxVisitors : ℚ) (flag : ℕ → ℚ) (f : ℕ) : Prop :=
  2 * flag f ≥ totalMeetings y visitors slots f - maxVisitors + 2

/-- Per-visitor utility expression, mirroring `utility` (`core.py` lines
1302-1304). -/
def utilityExpr (weights : ℕ → ℕ → ℚ) (y : ℕ → ℕ → ℕ → ℚ)
    (faculty slots : List ℕ) (s : ℕ) : ℚ :=
  (slots.map (fun t => (faculty.map (fun f => weights s f * y s f t)).sum)).sum

/-- Per-host group-meeting cost expression, mirroring `cost` (`core.py`
lines 1307-1309). -/
def costExpr (beyond : ℕ → ℕ → ℚ) (slots : List ℕ) (f : ℕ) : ℚ :=
  (slots.map (fun t => beyond f t)).sum

/-- The maximized objective, mirroring `obj` (`core.py` lines 1311-1313):
total utility minus the group penalty times total beyond-one cost minus
three times the group penalty times the sum of too-many-meetings flags. -/
def objExpr (weights : ℕ → ℕ → ℚ) (y : ℕ → ℕ → ℕ → ℚ) (penalty : ℚ)
    (beyond : ℕ → ℕ → ℚ) (flag : ℕ → ℚ) (visitors faculty slots : List ℕ) : ℚ :=
  (visitors.map (utilityExpr weights y faculty slots)).sum
    - penalty * (faculty.map (costExpr beyond slots)).sum
    - 3 * penalty * (faculty.map flag).sum

/-- A faculty record, mirroring the entry dictionaries of `core.py`
(fields `building`, `avail`, `areas`, `room`). -/
structure FacEntry where
  building : String
  avail : List ℕ
  areas : List String
  room : String
deriving DecidableEq

/-- The faculty-related slice of `Scheduler` state: the active faculty
dictionary, the external faculty dictionary, the legacy name pool, the
primary building, and the 1-based time-slot list. -/
structure FacultyState where
  faculty : List (String × FacEntry)
  externalFaculty : List (String × FacEntry)
  legacyFaculty : List String
  buildingA : String
  timeSlots : List ℕ
deriving DecidableEq

/-- Python dictionary assignment `d[k] = v`: replace the first binding of
`k` in place, else append a new binding. -/
def dictSet : List (String × FacEntry) → String → FacEntry → List (String × FacEntry)
  | [], k, v => [(k, v)]
  | p :: rest, k, v => if p.1 = k then (k, v) :: rest else p :: dictSet rest k v

/-- The placeholder record synthesized for an unknown requested host,
mirroring `_add_external_faculty_from_preferences` (`core.py` lines
937-943): primary building, empty availability, no areas, no room. -/
def placeholderEntry (st : FacultyState) : FacEntry :=
  ⟨st.buildingA, [], [], ""⟩

/-- `_add_external_faculty_from_preferences` (`core.py` lines 928-947):
alias-resolve each requested name, synthesize placeholder external
records for names unknown to every pool, then merge external records
into the active faculty dictionary where absent. -/
def addExternalFacultyFromPreferences (aliases : List (String × String))
    (namesInPrefs : List String) (st : FacultyState) : FacultyState :=
  let st1 := namesInPrefs.foldl (fun acc rawName =>
    let name := (aliases.lookup rawName).getD rawName
    if name ≠ "" ∧ (acc.faculty.lookup name).isNone
        ∧ (acc.externalFaculty.lookup name).isNone ∧ name ∉ acc.legacyFaculty then
      { acc with externalFaculty := dictSet acc.externalFaculty name (placeholderEntry acc) }
    else acc) st
  st1.externalFaculty.foldl (fun acc p =>
    if (acc.faculty.lookup p.1).isNone then { acc with faculty := acc.faculty ++ [p] }
    else acc) st1

/-- `Scheduler.add_external_faculty` (`core.py` lines 949-978): defaults
(`areas` to `[]`, `available` to the full time-slot list, `building` to
the primary building), unconditional update of the external dictionary,
and merge into the active faculty dictionary only when the name is not
already present there. -/
def addExternalFaculty (st : FacultyState) (name : String) (building : Option String)
    (room : String) (areas : Option (List String)) (available : Option (List ℕ)) :
    FacultyState :=
  let areasV := areas.getD []
  let availV := available.getD st.timeSlots
  let buildingV := building.getD st.buildingA
  let entry : FacEntry := ⟨buildingV, availV, areasV, room⟩
  { st with
    externalFaculty := dictSet st.externalFaculty name entry,
    faculty :=
      if (st.faculty.lookup name).isNone then st.faculty ++ [(name, entry)]
      else st.faculty }

/-- The availability-filtered faculty set used by `_build_model`
(`core.py` lines 1251-1254): hosts with non-empty availability. -/
def facultyAvailable (st : FacultyState) : List String :=
  (st.faculty.filter (fun p => decide (0 < p.2.avail.length))).map (fun p => p.1)

/-- The (reachable part of the) validation loop of
`specify_limited_student_availability` (`core.py` lines 1098-1103): the
first entry whose visitor name is unknown raises.  The slot-range check
of lines 1101-1103 is nested after that `raise` statement in the source
and therefore can never execute; faithfully, no slot validation occurs
here. -/
def checkStudentsAvailable (studentNames : List String)
    (sa : List (String × List ℕ)) : Except String Unit :=
  match sa.find? (fun p => decide (p.1 ∉ studentNames)) with
  | some p => Except.error (p.1 ++ " is not a valid student name")
  | none => Except.ok ()

/-- `Scheduler.specify_limited_student_availability` (`core.py` lines
1085-1111): validate entries, then default every unlisted visitor to the
full slot list and store the result. -/
def specifyLimitedStudentAvailability (studentNames : List String) (timeSlots : List ℕ)
    (sa : List (String × List ℕ)) : Except String (List (String × List ℕ)) :=
  match checkStudentsAvailable studentNames sa with
  | Except.error e => Except.error e
  | Except.ok _ =>
      Except.ok (sa ++ (studentNames.filter (fun s => decide ((sa.lookup s).isNone))).map
        (fun s => (s, timeSlots)))

/-- An assignment index `(visitor, host, slot)`, the index space of the
binary decision variable `y` of the model. -/
abbrev MeetingIdx := ℕ × ℕ × ℕ

/-- The solution snapshot fields relevant to enumeration, mirroring
`SolutionResult` (`core.py` lines 171-219): rank, active assignment set,
objective value. -/
structure Snapshot where
  rank : ℕ
  activeMeetings : Finset MeetingIdx
  objectiveValue : ℚ
deriving DecidableEq

/-- The top-N enumeration loop of `schedule_visitors_top_n` (`core.py`
lines 1204-1227) over an abstract solver oracle: solve with the cuts
accumulated so far; stop at the first non-feasible solve; otherwise
snapshot the solution at the current rank and append a no-good cut
excluding its exact active set before the next iteration. -/
def scheduleVisitorsTopN (solve : List (Finset MeetingIdx) → Option (Finset MeetingIdx × ℚ)) :
    ℕ → ℕ → List (Finset MeetingIdx) → List Snapshot
  | 0, _, _ => []
  | n + 1, rank, cuts =>
    match solve cuts with
    | none => []
    | some av => ⟨rank, av.1, av.2⟩ :: scheduleVisitorsTopN solve n (rank + 1) (cuts ++ [av.1])

/-- The value of the binary variable `y` at one index for an active set. -/
def indicatorY (A : Finset MeetingIdx) (x : MeetingIdx) : ℤ :=
  if x ∈ A then 1 else 0

/-- The left-hand side of a retained no-good cut, mirroring
`_add_no_good_cut` (`core.py` lines 1551-1569): the sum of `1 - y` over
the excluded solution's active indices plus the sum of `y` over all
remaining indices; the cut requires this to be at least `1`. -/
def noGoodCutLHS (allIdx S A : Finset MeetingIdx) : ℤ :=
  (∑ x ∈ S, (1 - indicatorY A x)) + ∑ x ∈ allIdx \ S, indicatorY A x

/-- First demo assignment set for the enumeration witness. -/
def demoMeetingA : Finset MeetingIdx := {(0, 0, 1)}

/-- Second demo assignment set for the enumeration witness. -/
def demoMeetingB : Finset MeetingIdx := {(0, 0, 2)}

/-- Demo feasible candidates, listed in decreasing objective order. -/
def demoCandidates : List (Finset MeetingIdx × ℚ) :=
  [(demoMeetingA, 5), (demoMeetingB, 3)]

/-- Demo solver oracle: the best candidate not yet excluded by a cut. -/
def demoSolve (cuts : List (Finset MeetingIdx)) : Option (Finset MeetingIdx × ℚ) :=
  demoCandidates.find? (fun c => decide (c.1 ∉ cuts))

/-- Demo feasible set: sets occurring among the candidates. -/
def demoFeasible (a : Finset MeetingIdx) : Prop :=
  a = demoMeetingA ∨ a = demoMeetingB

/-- Demo objective value of a feasible set. -/
def demoVal (a : Finset MeetingIdx) : ℚ :=
  if a = demoMeetingA then 5 else if a = demoMeetingB then 3 else 0

/-- Demo full index set containing every candidate assignment. -/
def demoAllIdx : Finset MeetingIdx := {(0, 0, 1), (0, 0, 2)}

/-- Mutations that the live scheduler/model may undergo after a snapshot:
another solve-and-snapshot iteration, a retained no-good cut, or a
weight update rebuilding the preference map. -/
inductive SchedOp where
  | solveSnap : SchedOp
  | addCut : Finset MeetingIdx → SchedOp
  | updateWeights : ℚ → SchedOp

/-- The mutable live state: accumulated cuts on the model and the
scheduler's current preference map. -/
structure LiveState where
  cuts : List (Finset MeetingIdx)
  prefs : List ((ℕ × ℕ) × ℚ)

/-- A solution snapshot with its copied context, mirroring
`SolutionResult` plus `_build_solution_context` (`core.py` lines
171-219 and 1497-1524): rank, active set, objective value, and the
preference map copied at capture time. -/
structure SnapResult where
  rank : ℕ
  activeMeetings : Finset MeetingIdx
  objectiveValue : ℚ
  contextPrefs : List ((ℕ × ℕ) × ℚ)

/-- One mutation step of the live scheduler: a solve appends a cut and a
snapshot built from the state at capture time; a cut addition or a
weight update rewrites the live state and touches no snapshot. -/
def applyOp (solve : List (Finset MeetingIdx) → Option (Finset MeetingIdx × ℚ)) :
    LiveState × List SnapResult → SchedOp → LiveState × List SnapResult
  | (st, snaps), SchedOp.solveSnap =>
    match solve st.cuts with
    | none => (st, snaps)
    | some av =>
        (⟨st.cuts ++ [av.1], st.prefs⟩,
          snaps ++ [⟨snaps.length + 1, av.1, av.2, st.prefs⟩])
  | (st, snaps), SchedOp.addCut c => (⟨st.cuts ++ [c], st.prefs⟩, snaps)
  | (st, snaps), SchedOp.updateWeights w =>
      (⟨st.cuts, st.prefs.map (fun p => (p.1, w))⟩, snaps)

/-- Run a sequence of live-scheduler mutations from an initial state. -/
def runOps (solve : List (Finset MeetingIdx) → Option (Finset MeetingIdx × ℚ))
    (init : LiveState × List SnapResult) (ops : List SchedOp) :
    LiveState × List SnapResult :=
  ops.foldl (applyOp solve) init

/-- Parsed slot windows of building MCH in the shifted-clock regression
grid of `tests/test_scheduler_data.py`. -/
def mchIntervals : List Interval := [(60, 85), (90, 115), (120, 145), (150, 175)]

/-- Parsed slot windows of building NSH in the shifted-clock regression
grid of `tests/test_scheduler_data.py`. -/
def nshIntervals : List Interval := [(75, 125), (105, 155), (135, 185), (165, 215)]

/-- Initial faculty state for the external-override scenario: one active
catalog host in the primary building, three slots. -/
def c7Initial : FacultyState :=
  ⟨[("Prof Host", ⟨"BldA", [1, 2, 3], ["Area1"], "100"⟩)], [], [], "BldA", [1, 2, 3]⟩

/-- State after a visitor request referencing the unknown name `Prof X`
synthesizes and merges an external placeholder. -/
def c7AfterPrefs : FacultyState :=
  addExternalFacultyFromPreferences [] ["Prof X"] c7Initial

/-- State after the explicit registration call
`add_external_faculty("Prof X", building="BldB", room="R1",
areas=["Area1"], available=[1])` that the spec says overrides the
placeholder. -/
def c7AfterOverride : FacultyState :=
  addExternalFaculty c7AfterPrefs "Prof X" (some "BldB") "R1" (some ["Area1"]) (some [1])

/-! Helper lemmas. -/

theorem mem_overlapDiffs {f t : List Interval} {buf d : ℕ} :
    d ∈ overlapDiffs f t buf ↔ ∃ i j, overlapsAt f t buf i j ∧ d = j - i := by
  unfold overlapDiffs
  simp only [List.mem_flatMap, List.mem_map, List.mem_filter, List.mem_range,
    decide_eq_true_eq]
  constructor
  · rintro ⟨i, hi, j, ⟨hj, hov⟩, rfl⟩
    exact ⟨i, j, hov, rfl⟩
  · rintro ⟨i, j, hov, rfl⟩
    exact ⟨i, hov.2.1, j, ⟨hov.2.2.1, hov⟩, rfl⟩

theorem le_foldr_max {d : ℕ} {l : List ℕ} (h : d ∈ l) : d ≤ l.foldr max 0 := by
  induction l with
  | nil => cases h
  | cons a tl ih =>
    rcases List.mem_cons.mp h with rfl | h2
    · exact Nat.le_max_left _ _
    · exact le_trans (ih h2) (Nat.le_max_right _ _)

theorem foldr_max_eq_zero_or_mem (l : List ℕ) :
    l.foldr max 0 = 0 ∨ l.foldr max 0 ∈ l := by
  induction l with
  | nil => exact Or.inl rfl
  | cons a tl ih =>
    simp only [List.foldr]
    rcases Nat.le_total a (tl.foldr max 0) with h | h
    · rw [Nat.max_eq_right h]
      rcases ih with h0 | hm
      · exact Or.inl h0
      · exact Or.inr (List.mem_cons_of_mem _ hm)
    · rw [Nat.max_eq_left h]
      exact Or.inr (List.mem_cons_self _ _)

theorem overlapsAt_le_minTravelLagPair {f t : List Interval} {buf i j : ℕ}
    (h : overlapsAt f t buf i j) : j - i ≤ minTravelLagPair f t buf :=
  le_foldr_max (mem_overlapDiffs.mpr ⟨i, j, h, rfl⟩)

theorem minTravelLagPair_zero_or_witness (f t : List Interval) (buf : ℕ) :
    minTravelLagPair f t buf = 0 ∨
      ∃ i j, overlapsAt f t buf i j ∧ j - i = minTravelLagPair f t buf := by
  rcases foldr_max_eq_zero_or_mem (overlapDiffs f t buf) with h | h
  · exact Or.inl h
  · rcases mem_overlapDiffs.mp h with ⟨i, j, hov, hd⟩
    exact Or.inr ⟨i, j, hov, hd.symm⟩

theorem minTravelLagPair_le_length (f t : List Interval) (buf : ℕ) :
    minTravelLagPair f t buf ≤ t.length := by
  rcases minTravelLagPair_zero_or_witness f t buf with h | ⟨i, j, hov, hd⟩
  · omega
  · have hj : j < t.length := hov.2.2.1
    omega

theorem firstSuchThat_spec (p : ℕ → Bool) :
    ∀ fuel start m, start ≤ m → m < start + fuel + 1 → p m = true →
      (∀ k, start ≤ k → k < m → p k = false) → firstSuchThat p fuel start = m := by
  intro fuel
  induction fuel with
  | zero =>
    intro start m h1 h2 _ _
    unfold firstSuchThat
    omega
  | succ n ih =>
    intro start m h1 h2 hm hlt
    unfold firstSuchThat
    by_cases hs : p start = true
    · have heq : start = m := by
        by_contra hne
        have hlt2 : start < m := lt_of_le_of_ne h1 hne
        have hf := hlt start le_rfl hlt2
        rw [hs] at hf
        cases hf
      rw [if_pos hs, heq]
    · have hne : start ≠ m := fun he => hs (he ▸ hm)
      have h1' : start + 1 ≤ m := lt_of_le_of_ne h1 hne
      rw [if_neg hs]
      exact ih (start + 1) m h1' (by omega) hm (fun k hk1 hk2 => hlt k (by omega) hk2)

theorem nonoverlapLagPair_eq_minTravelLagPair (f t : List Interval) (buf : ℕ) :
    nonoverlapLagPair f t buf = minTravelLagPair f t buf := by
  unfold nonoverlapLagPair
  apply firstSuchThat_spec
  · exact Nat.zero_le _
  · have := minTravelLagPair_le_length f t buf
    omega
  · rw [decide_eq_true_eq]
    intro d hd
    rcases mem_overlapDiffs.mp hd with ⟨i, j, hov, rfl⟩
    exact overlapsAt_le_minTravelLagPair hov
  · intro k _ hk
    rw [decide_eq_false_iff_not]
    intro hblock
    rcases minTravelLagPair_zero_or_witness f t buf with h0 | ⟨i, j, hov, hd⟩
    · omega
    · have := hblock (j - i) (mem_overlapDiffs.mpr ⟨i, j, hov, rfl⟩)
      omega

theorem nonoverlapDerivedLags_eq_computeMinTravelLags (grid : Grid) (buf : ℕ) :
    nonoverlapDerivedLags grid buf = computeMinTravelLags grid buf := by
  unfold nonoverlapDerivedLags computeMinTravelLags lagMatrixWith
  simp [nonoverlapLagPair_eq_minTravelLagPair]

/-! Claim theorems. -/

/-- C1: for every location slot-grid input and buffer, configuring
movement with the dedicated non-overlap-derived policy `nonoverlap_time`
(and no explicit travel matrix) succeeds, and the travel-lag matrix it
produces — derived pairwise as the least lag guaranteeing no real-time
overlap — is identical to the matrix produced by policy `travel_time`
with `travel_slots = "auto"` on the same input. -/
theorem C1_nonoverlap_policy_equivalence (grid : Grid) (buf : ℕ) :
    configureMovement grid "nonoverlap_time" none buf
      = Except.ok (nonoverlapDerivedLags grid buf) ∧
    configureMovement grid "nonoverlap_time" none buf
      = configureMovement grid "travel_time" (some TravelSpec.autoDerive) buf := by
  constructor
  · rfl
  · have h1 : configureMovement grid "nonoverlap_time" none buf
        = Except.ok (nonoverlapDerivedLags grid buf) := rfl
    have h2 : configureMovement grid "travel_time" (some TravelSpec.autoDerive) buf
        = Except.ok (computeMinTravelLags grid buf) := rfl
    rw [h1, h2, nonoverlapDerivedLags_eq_computeMinTravelLags]

/-- C2 counterexample: on the shifted-clock grid of
`tests/test_scheduler_data.py` (NSH to MCH, zero buffer) the derived lag
is `2`, yet the forward transition from slot index `0` to slot index `2`
overlaps and has index difference exactly `2`, not strictly less than
the lag.  Hence the lag is the maximum overlap difference, not one plus
it, and the claimed strict bound `j - i < L` fails. -/
theorem C2_counterexample :
    minTravelLagPair nshIntervals mchIntervals 0 = 2 ∧
    overlapsAt nshIntervals mchIntervals 0 0 2 ∧
    ¬ (2 - 0 < minTravelLagPair nshIntervals mchIntervals 0) := by
  decide

/-- C2 (amended): for every pair of per-location interval grids and
every buffer, the derived lag `L` blocks every overlapping forward
transition (each overlap difference `j - i` is at most `L`), `L` is the
least lag doing so, and whenever `L` is positive some overlapping
forward transition has difference exactly `L` — so reducing `L` by one
leaves that transition unblocked. -/
theorem C2_lag_exact_and_minimal (f t : List Interval) (buf : ℕ) :
    blocksAllOverlaps f t buf (minTravelLagPair f t buf) ∧
    (∀ L, blocksAllOverlaps f t buf L → minTravelLagPair f t buf ≤ L) ∧
    (0 < minTravelLagPair f t buf →
      ∃ i j, overlapsAt f t buf i j ∧ j - i = minTravelLagPair f t buf) := by
  refine ⟨?_, ?_, ?_⟩
  · intro d hd
    rcases mem_overlapDiffs.mp hd with ⟨i, j, hov, rfl⟩
    exact overlapsAt_le_minTravelLagPair hov
  · intro L hL
    rcases minTravelLagPair_zero_or_witness f t buf with h0 | ⟨i, j, hov, hd⟩
    · omega
    · have := hL (j - i) (mem_overlapDiffs.mpr ⟨i, j, hov, rfl⟩)
      omega
  · intro hpos
    rcases minTravelLagPair_zero_or_witness f t buf with h0 | hw
    · omega
    · exact hw

/-- C2 witness: on the shifted-clock regression grid the derived lag is
positive and the amended theorem yields an overlapping forward
transition exactly that lag apart. -/
theorem C2_lag_exact_witness :
    0 < minTravelLagPair nshIntervals mchIntervals 0 ∧
    ∃ i j, overlapsAt nshIntervals mchIntervals 0 i j ∧
      j - i = minTravelLagPair nshIntervals mchIntervals 0 :=
  ⟨by decide, (C2_lag_exact_and_minimal nshIntervals mchIntervals 0).2.2 (by decide)⟩

theorem sum_map_update (g : ℕ → ℚ) (a : ℚ) :
    ∀ (l : List ℕ) (f : ℕ), l.Nodup → f ∈ l →
      (l.map (Function.update g f a)).sum = (l.map g).sum - g f + a := by
  intro l
  induction l with
  | nil => intro f _ hf; cases hf
  | cons b tl ih =>
    intro f hnd hf
    have hbtl : b ∉ tl := (List.nodup_cons.mp hnd).1
    have htl : tl.Nodup := (List.nodup_cons.mp hnd).2
    rcases List.mem_cons.mp hf with rfl | hftl
    · have hcong : tl.map (Function.update g f a) = tl.map g :=
        List.map_congr_left (fun x hx =>
          Function.update_noteq (fun he => hbtl (by rw [← he]; exact hx)) a g)
      simp only [List.map_cons, List.sum_cons, hcong, Function.update_same]
      ring
    · have hfb : f ≠ b := by
        rintro rfl
        exact hbtl hftl
      simp only [List.map_cons, List.sum_cons,
        Function.update_noteq (Ne.symm hfb) a g, ih f htl hftl]
      ring

theorem lookup_dictSet (k : String) (v : FacEntry) :
    ∀ d : List (String × FacEntry), (dictSet d k v).lookup k = some v := by
  intro d
  induction d with
  | nil => simp [dictSet, List.lookup]
  | cons p rest ih =>
    obtain ⟨k2, v2⟩ := p
    unfold dictSet
    by_cases h : k2 = k
    · simp [h, List.lookup]
    · simp only [if_neg h, List.lookup]
      have : (k == k2) = false := by
        simp [Ne.symm h]
      rw [this]
      exact ih

theorem atRiskPairs_nil_of_identical :
    ∀ grid : Grid, (∀ r ∈ grid, ∀ r2 ∈ grid, r.2 = r2.2) → atRiskPairs grid = [] := by
  intro grid
  induction grid with
  | nil => intro _; rfl
  | cons p rest ih =>
    intro hid
    have hall : ∀ q ∈ rest, q.2 = p.2 := fun q hq =>
      hid q (List.mem_cons_of_mem _ hq) p (List.mem_cons_self _ _)
    unfold atRiskPairs
    have h1 : rest.filter (fun q => decide (q.2 ≠ p.2)) = [] := by
      rw [List.filter_eq_nil_iff]
      intro q hq
      simp [hall q hq]
    rw [h1, List.map_nil, List.nil_append]
    exact ih (fun r hr r2 hr2 =>
      hid r (List.mem_cons_of_mem _ hr) r2 (List.mem_cons_of_mem _ hr2))

theorem mem_atRiskPairs_spec :
    ∀ (grid : Grid) (pr : String × String), pr ∈ atRiskPairs grid →
      ∃ iv1 iv2, (pr.1, iv1) ∈ grid ∧ (pr.2, iv2) ∈ grid ∧ iv1 ≠ iv2 := by
  intro grid
  induction grid with
  | nil => intro pr h; cases h
  | cons p rest ih =>
    intro pr h
    unfold atRiskPairs at h
    rcases List.mem_append.mp h with h1 | h2
    · rcases List.mem_map.mp h1 with ⟨q, hq, rfl⟩
      rcases List.mem_filter.mp hq with ⟨hqrest, hqne⟩
      rw [decide_eq_true_eq] at hqne
      exact ⟨p.2, q.2, List.mem_cons_self _ _, List.mem_cons_of_mem _ hqrest,
        Ne.symm hqne⟩
    · rcases ih pr h2 with ⟨iv1, iv2, hm1, hm2, hne⟩
      exact ⟨iv1, iv2, List.mem_cons_of_mem _ hm1, List.mem_cons_of_mem _ hm2, hne⟩

theorem sublist_mem_atRiskPairs :
    ∀ (grid : Grid) (p q : String × List Interval), [p, q].Sublist grid →
      q.2 ≠ p.2 → (p.1, q.1) ∈ atRiskPairs grid := by
  intro grid
  induction grid with
  | nil =>
    intro p q hsub _
    cases hsub
  | cons r rest ih =>
    intro p q hsub hne
    cases hsub with
    | cons _ hsub2 =>
      unfold atRiskPairs
      exact List.mem_append.mpr (Or.inr (ih p q hsub2 hne))
    | cons₂ _ hsub2 =>
      unfold atRiskPairs
      apply List.mem_append.mpr
      left
      apply List.mem_map.mpr
      refine ⟨q, List.mem_filter.mpr ⟨List.singleton_sublist.mp hsub2, ?_⟩, rfl⟩
      simpa using hne

/-- C4: the generated too-many-meetings constraint
`2 * flag_f >= total_meetings_f - max_visitors + 2` forces the binary
flag of any host whose total meeting count exceeds `max_visitors - 2`
to equal `1`, and raising that flag from `0` to `1` lowers the
maximized objective by exactly three times the group penalty. -/
theorem C4_too_many_meetings_flag (weights : ℕ → ℕ → ℚ) (y : ℕ → ℕ → ℕ → ℚ)
    (penalty maxVisitors : ℚ) (beyond : ℕ → ℕ → ℚ) (flag : ℕ → ℚ)
    (visitors faculty slots : List ℕ) (f : ℕ)
    (hf : f ∈ faculty) (hnd : faculty.Nodup)
    (hbin : flag f = 0 ∨ flag f = 1)
    (hcon : countFacultyTooManyMeetings y visitors slots maxVisitors flag f)
    (hexceed : maxVisitors - 2 < totalMeetings y visitors slots f) :
    flag f = 1 ∧
    objExpr weights y penalty beyond (Function.update flag f 0) visitors faculty slots
        - objExpr weights y penalty beyond (Function.update flag f 1) visitors faculty slots
      = 3 * penalty := by
  constructor
  · unfold countFacultyTooManyMeetings at hcon
    rcases hbin with h0 | h1
    · rw [h0] at hcon
      linarith
    · exact h1
  · unfold objExpr
    rw [sum_map_update flag 0 faculty f hnd hf, sum_map_update flag 1 faculty f hnd hf]
    ring

/-- C4 witness: a one-host model with one meeting and `max_visitors = 2`
satisfies the constraint with flag `1`, exceeds the threshold, and the
`3 x penalty` objective decrement is realized. -/
theorem C4_too_many_meetings_witness :
    (fun _ : ℕ => (1 : ℚ)) 0 = 1 ∧
    objExpr (fun _ _ => 1) (fun _ _ _ => 1) 1 (fun _ _ => 0)
        (Function.update (fun _ : ℕ => (1 : ℚ)) 0 0) [0] [0] [1]
      - objExpr (fun _ _ => 1) (fun _ _ _ => 1) 1 (fun _ _ => 0)
        (Function.update (fun _ : ℕ => (1 : ℚ)) 0 1) [0] [0] [1]
      = 3 * 1 :=
  C4_too_many_meetings_flag (fun _ _ => 1) (fun _ _ _ => 1) 1 2 (fun _ _ => 0)
    (fun _ => 1) [0] [0] [1] 0
    (by simp) (by simp)
    (Or.inr rfl)
    (by unfold countFacultyTooManyMeetings totalMeetings; simp)
    (by unfold totalMeetings; simp)

/-- C5: with zero configured break slots, requesting break enforcement —
explicitly via `enforce_breaks=True` or implicitly via the legacy
`NO_OFFSET` mode — makes model construction fail fatally with the
"Must specify some break times!" error instead of silently omitting
the break constraints. -/
theorem C5_zero_break_slots_fatal (mode : Option Mode)
    (movementProvided enforceBreaks : Bool) (breakTimes : List ℕ)
    (hzero : breakTimes = [])
    (hreq : enforceBreaks = true ∨ mode = some Mode.noOffset ∧ movementProvided = false) :
    buildModelBreakCheck (requireBreakConstraintsDefault mode movementProvided)
        enforceBreaks breakTimes
      = Except.error "Must specify some break times!" := by
  subst hzero
  rcases hreq with h | ⟨h1, h2⟩
  · subst h
    unfold buildModelBreakCheck
    simp
  · subst h1
    subst h2
    unfold requireBreakConstraintsDefault buildModelBreakCheck
    simp

/-- C5 witness: the legacy `NO_OFFSET` mode with no break slots fails at
model build. -/
theorem C5_zero_break_slots_witness :
    buildModelBreakCheck (requireBreakConstraintsDefault (some Mode.noOffset) false)
        false []
      = Except.error "Must specify some break times!" :=
  C5_zero_break_slots_fatal (some Mode.noOffset) false false [] rfl
    (Or.inr ⟨rfl, rfl⟩)

/-- C6: under movement policy `none`, if all location slot windows are
identical no warning is emitted; any emitted warning names only pairs of
locations with genuinely differing windows; and whenever the grid
contains (in order) two locations with differing windows, the warning is
emitted and names that pair. -/
theorem C6_shifted_clock_warning (grid : Grid) :
    ((∀ r ∈ grid, ∀ r2 ∈ grid, r.2 = r2.2) → movementNoneWarning grid "none" = none) ∧
    (∀ ps, movementNoneWarning grid "none" = some ps →
      ps ≠ [] ∧ ∀ pr ∈ ps, ∃ iv1 iv2, (pr.1, iv1) ∈ grid ∧ (pr.2, iv2) ∈ grid ∧ iv1 ≠ iv2) ∧
    (∀ p q, [p, q].Sublist grid → q.2 ≠ p.2 →
      ∃ ps, movementNoneWarning grid "none" = some ps ∧ (p.1, q.1) ∈ ps) := by
  refine ⟨?_, ?_, ?_⟩
  · intro hid
    unfold movementNoneWarning
    rw [if_neg]
    intro hcontra
    exact hcontra.2 (atRiskPairs_nil_of_identical grid hid)
  · intro ps hps
    unfold movementNoneWarning at hps
    split at hps
    · rename_i hcond
      cases hps
      exact ⟨hcond.2, fun pr hpr => mem_atRiskPairs_spec grid pr hpr⟩
    · cases hps
  · intro p q hsub hne
    have hmem := sublist_mem_atRiskPairs grid p q hsub hne
    refine ⟨atRiskPairs grid, ?_, hmem⟩
    unfold movementNoneWarning
    rw [if_pos ⟨rfl, List.ne_nil_of_mem hmem⟩]

/-- C6 witness: the shifted two-building grid warns and names the pair,
and the identical two-building grid does not warn. -/
theorem C6_shifted_clock_witness :
    (∃ ps, movementNoneWarning [("MCH", mchIntervals), ("NSH", nshIntervals)] "none"
        = some ps ∧ ("MCH", "NSH") ∈ ps) ∧
    movementNoneWarning [("A", mchIntervals), ("B", mchIntervals)] "none" = none :=
  ⟨(C6_shifted_clock_warning [("MCH", mchIntervals), ("NSH", nshIntervals)]).2.2
      ("MCH", mchIntervals) ("NSH", nshIntervals) (List.Sublist.refl _) (by decide),
    (C6_shifted_clock_warning [("A", mchIntervals), ("B", mchIntervals)]).1 (by decide)⟩

/-- C7: at the failing input, the externally registered data never
reaches the faculty dictionary that model building reads.  The unknown
requested name `Prof X` is synthesized as an empty-availability
placeholder and merged into the faculty dictionary; the subsequent
explicit registration call updates only the external dictionary, leaves
the merged faculty record at the placeholder, and `Prof X` stays outside
the availability-filtered faculty set used to build and solve the
model — contradicting the claimed override. -/
theorem C7_override_not_applied :
    c7AfterPrefs.faculty.lookup "Prof X" = some ⟨"BldA", [], [], ""⟩ ∧
    c7AfterOverride.externalFaculty.lookup "Prof X" = some ⟨"BldB", [1], ["Area1"], "R1"⟩ ∧
    c7AfterOverride.faculty.lookup "Prof X" = some ⟨"BldA", [], [], ""⟩ ∧
    "Prof X" ∉ facultyAvailable c7AfterOverride := by
  decide

/-- C8: at the failing input — a known visitor with the out-of-range slot
index `999` in a three-slot grid — `specify_limited_student_availability`
raises nothing and stores the invalid availability unchanged, because the
slot-range validation of the source is nested after the name-error
`raise` and is unreachable. -/
theorem C8_out_of_range_slot_accepted :
    specifyLimitedStudentAvailability ["Visitor 1"] [1, 2, 3] [("Visitor 1", [999])]
      = Except.ok [("Visitor 1", [999])] ∧ (999 : ℕ) ∉ [1, 2, 3] :=
  ⟨rfl, by decide⟩

/-- C10: a registration call that omits `available` stores the external
record with the full 1-based time-slot list (not the empty set), and
omitting `building` defaults the record to the primary location. -/
theorem C10_external_defaults (st : FacultyState) (name room : String) (n : ℕ)
    (hts : st.timeSlots = List.range' 1 n) :
    (addExternalFaculty st name none room none none).externalFaculty.lookup name
      = some ⟨st.buildingA, List.range' 1 n, [], room⟩ := by
  unfold addExternalFaculty
  simp only [Option.getD_none]
  rw [← hts]
  exact lookup_dictSet name _ st.externalFaculty

/-- C10 witness: registering `External Z` with all optional arguments
omitted stores full availability over the three slots and the primary
building. -/
theorem C10_external_defaults_witness :
    (addExternalFaculty c7Initial "External Z" none "" none none).externalFaculty.lookup
        "External Z"
      = some ⟨"BldA", [1, 2, 3], [], ""⟩ :=
  C10_external_defaults c7Initial "External Z" "" 3 rfl

theorem topN_succ_none (solve : List (Finset MeetingIdx) → Option (Finset MeetingIdx × ℚ))
    (n rank : ℕ) (cuts : List (Finset MeetingIdx)) (h : solve cuts = none) :
    scheduleVisitorsTopN solve (n + 1) rank cuts = [] := by
  unfold scheduleVisitorsTopN
  rw [h]

theorem topN_succ_some (solve : List (Finset MeetingIdx) → Option (Finset MeetingIdx × ℚ))
    (n rank : ℕ) (cuts : List (Finset MeetingIdx)) (av : Finset MeetingIdx × ℚ)
    (h : solve cuts = some av) :
    scheduleVisitorsTopN solve (n + 1) rank cuts
      = ⟨rank, av.1, av.2⟩ :: scheduleVisitorsTopN solve n (rank + 1) (cuts ++ [av.1]) := by
  conv_lhs => unfold scheduleVisitorsTopN
  rw [h]

theorem topN_mem_props (solve : List (Finset MeetingIdx) → Option (Finset MeetingIdx × ℚ))
    (F : Finset MeetingIdx → Prop) (val : Finset MeetingIdx → ℚ)
    (hsol : ∀ cuts a v, solve cuts = some (a, v) → F a ∧ a ∉ cuts ∧ v = val a) :
    ∀ n rank cuts x, x ∈ scheduleVisitorsTopN solve n rank cuts →
      F x.activeMeetings ∧ x.activeMeetings ∉ cuts ∧
        x.objectiveValue = val x.activeMeetings := by
  intro n
  induction n with
  | zero =>
    intro rank cuts x hx
    cases hx
  | succ m ih =>
    intro rank cuts x hx
    cases h : solve cuts with
    | none =>
      rw [topN_succ_none solve m rank cuts h] at hx
      cases hx
    | some av =>
      rw [topN_succ_some solve m rank cuts av h] at hx
      rcases List.mem_cons.mp hx with rfl | hx2
      · have hs := hsol cuts av.1 av.2 (by rw [h])
        exact ⟨hs.1, hs.2.1, hs.2.2⟩
      · have ht := ih (rank + 1) (cuts ++ [av.1]) x hx2
        exact ⟨ht.1, fun hc => ht.2.1 (List.mem_append_left _ hc), ht.2.2⟩

theorem noGoodCutLHS_eq_card (allIdx S A : Finset MeetingIdx) (hA : A ⊆ allIdx) :
    noGoodCutLHS allIdx S A = ((S \ A).card : ℤ) + ((A \ S).card : ℤ) := by
  unfold noGoodCutLHS indicatorY
  have h1 : (∑ x ∈ S, ((1 : ℤ) - if x ∈ A then 1 else 0))
      = ∑ x ∈ S, (if x ∉ A then (1 : ℤ) else 0) :=
    Finset.sum_congr rfl (fun x _ => by by_cases hx : x ∈ A <;> simp [hx])
  have h2 : S.filter (fun x => x ∉ A) = S \ A := (Finset.sdiff_eq_filter S A).symm
  have h3 : (allIdx \ S).filter (fun x => x ∈ A) = A \ S := by
    ext x
    simp only [Finset.mem_filter, Finset.mem_sdiff]
    constructor
    · rintro ⟨⟨_, hxs⟩, hxa⟩
      exact ⟨hxa, hxs⟩
    · rintro ⟨hxa, hxs⟩
      exact ⟨⟨hA hxa, hxs⟩, hxa⟩
  rw [h1, Finset.sum_boole, Finset.sum_boole, h2, h3]

theorem one_le_noGoodCutLHS (allIdx S A : Finset MeetingIdx) (hA : A ⊆ allIdx)
    (hne : S ≠ A) : 1 ≤ noGoodCutLHS allIdx S A := by
  rw [noGoodCutLHS_eq_card allIdx S A hA]
  have hcard : 0 < (S \ A).card + (A \ S).card := by
    by_contra hc
    push_neg at hc
    have h1 : (S \ A).card = 0 := by omega
    have h2 : (A \ S).card = 0 := by omega
    exact hne (Finset.Subset.antisymm
      (Finset.sdiff_eq_empty_iff_subset.mp (Finset.card_eq_zero.mp h1))
      (Finset.sdiff_eq_empty_iff_subset.mp (Finset.card_eq_zero.mp h2)))
  omega

/-- C3: over any solver oracle that returns only feasible assignments
respecting every retained cut and optimal among them, the top-N
enumeration yields pairwise-distinct active-assignment sets, rank-wise
non-increasing objective values, and every later solution satisfies the
retained no-good cut of every earlier one (cut value at least `1`). -/
theorem C3_top_n_distinct_and_monotone
    (solve : List (Finset MeetingIdx) → Option (Finset MeetingIdx × ℚ))
    (F : Finset MeetingIdx → Prop) (val : Finset MeetingIdx → ℚ)
    (allIdx : Finset MeetingIdx)
    (hsol : ∀ cuts a v, solve cuts = some (a, v) → F a ∧ a ∉ cuts ∧ v = val a)
    (hopt : ∀ cuts a v, solve cuts = some (a, v) → ∀ b, F b → b ∉ cuts → val b ≤ v)
    (hsub : ∀ a, F a → a ⊆ allIdx) :
    ∀ n rank cuts,
      ((scheduleVisitorsTopN solve n rank cuts).Pairwise
        (fun x y => x.activeMeetings ≠ y.activeMeetings)) ∧
      ((scheduleVisitorsTopN solve n rank cuts).Chain'
        (fun x y => y.objectiveValue ≤ x.objectiveValue)) ∧
      ((scheduleVisitorsTopN solve n rank cuts).Pairwise
        (fun x y => 1 ≤ noGoodCutLHS allIdx x.activeMeetings y.activeMeetings)) := by
  intro n
  induction n with
  | zero =>
    intro rank cuts
    exact ⟨List.Pairwise.nil, List.chain'_nil, List.Pairwise.nil⟩
  | succ m ih =>
    intro rank cuts
    cases h : solve cuts with
    | none =>
      rw [topN_succ_none solve m rank cuts h]
      exact ⟨List.Pairwise.nil, List.chain'_nil, List.Pairwise.nil⟩
    | some av =>
      rw [topN_succ_some solve m rank cuts av h]
      obtain ⟨ihP, ihC, ihCut⟩ := ih (rank + 1) (cuts ++ [av.1])
      have hs := hsol cuts av.1 av.2 (by rw [h])
      have hmem := topN_mem_props solve F val hsol m (rank + 1) (cuts ++ [av.1])
      have hne : ∀ y ∈ scheduleVisitorsTopN solve m (rank + 1) (cuts ++ [av.1]),
          av.1 ≠ y.activeMeetings := by
        intro y hy he
        exact (hmem y hy).2.1
          (by rw [← he]; exact List.mem_append_right _ (List.mem_singleton.mpr rfl))
      refine ⟨List.pairwise_cons.mpr ⟨hne, ihP⟩, ?_, List.pairwise_cons.mpr ⟨?_, ihCut⟩⟩
      · apply List.chain'_cons'.mpr
        refine ⟨?_, ihC⟩
        intro y hy
        have hytl := List.mem_of_mem_head? hy
        have hp := hmem y hytl
        have hv := hopt cuts av.1 av.2 (by rw [h]) y.activeMeetings hp.1
          (fun hc => hp.2.1 (List.mem_append_left _ hc))
        rw [hp.2.2]
        exact hv
      · intro y hy
        exact one_le_noGoodCutLHS allIdx av.1 y.activeMeetings
          (hsub y.activeMeetings (hmem y hy).1) (hne y hy)

theorem demoMeetings_ne : demoMeetingA ≠ demoMeetingB := by decide

theorem demo_hsol : ∀ cuts a v, demoSolve cuts = some (a, v) →
    demoFeasible a ∧ a ∉ cuts ∧ v = demoVal a := by
  intro cuts a v h
  unfold demoSolve demoCandidates at h
  by_cases hA : demoMeetingA ∈ cuts
  · rw [List.find?_cons_of_neg _ (by simp [hA])] at h
    by_cases hB : demoMeetingB ∈ cuts
    · rw [List.find?_cons_of_neg _ (by simp [hB])] at h
      cases h
    · rw [List.find?_cons_of_pos _ (by simp [hB])] at h
      simp only [Option.some.injEq, Prod.mk.injEq] at h
      obtain ⟨rfl, rfl⟩ := h
      refine ⟨Or.inr rfl, hB, ?_⟩
      unfold demoVal
      rw [if_neg (fun he => demoMeetings_ne he.symm), if_pos rfl]
  · rw [List.find?_cons_of_pos _ (by simp [hA])] at h
    simp only [Option.some.injEq, Prod.mk.injEq] at h
    obtain ⟨rfl, rfl⟩ := h
    refine ⟨Or.inl rfl, hA, ?_⟩
    unfold demoVal
    rw [if_pos rfl]

theorem demo_hopt : ∀ cuts a v, demoSolve cuts = some (a, v) →
    ∀ b, demoFeasible b → b ∉ cuts → demoVal b ≤ v := by
  intro cuts a v h b hFb hbc
  unfold demoSolve demoCandidates at h
  by_cases hA : demoMeetingA ∈ cuts
  · rw [List.find?_cons_of_neg _ (by simp [hA])] at h
    by_cases hB : demoMeetingB ∈ cuts
    · rw [List.find?_cons_of_neg _ (by simp [hB])] at h
      cases h
    · rw [List.find?_cons_of_pos _ (by simp [hB])] at h
      simp only [Option.some.injEq, Prod.mk.injEq] at h
      obtain ⟨rfl, rfl⟩ := h
      rcases hFb with rfl | rfl
      · exact absurd hA hbc
      · unfold demoVal
        rw [if_neg (fun he => demoMeetings_ne he.symm), if_pos rfl]
  · rw [List.find?_cons_of_pos _ (by simp [hA])] at h
    simp only [Option.some.injEq, Prod.mk.injEq] at h
    obtain ⟨rfl, rfl⟩ := h
    rcases hFb with rfl | rfl
    · unfold demoVal
      rw [if_pos rfl]
    · unfold demoVal
      rw [if_neg (fun he => demoMeetings_ne he.symm), if_pos rfl]
      decide

theorem demo_hsub : ∀ a, demoFeasible a → a ⊆ demoAllIdx := by
  rintro a (rfl | rfl) <;> decide

/-- C3 witness: the no-good-cut enumeration over the two-candidate demo
solver yields pairwise-distinct sets, non-increasing objectives, and
satisfied cuts. -/
theorem C3_top_n_witness :
    ((scheduleVisitorsTopN demoSolve 3 1 []).Pairwise
      (fun x y => x.activeMeetings ≠ y.activeMeetings)) ∧
    ((scheduleVisitorsTopN demoSolve 3 1 []).Chain'
      (fun x y => y.objectiveValue ≤ x.objectiveValue)) ∧
    ((scheduleVisitorsTopN demoSolve 3 1 []).Pairwise
      (fun x y => 1 ≤ noGoodCutLHS demoAllIdx x.activeMeetings y.activeMeetings)) :=
  C3_top_n_distinct_and_monotone demoSolve demoFeasible demoVal demoAllIdx
    demo_hsol demo_hopt demo_hsub 3 1 []

theorem applyOp_snd_append
    (solve : List (Finset MeetingIdx) → Option (Finset MeetingIdx × ℚ))
    (st : LiveState × List SnapResult) (op : SchedOp) :
    ∃ d, (applyOp solve st op).2 = st.2 ++ d := by
  obtain ⟨ls, snaps⟩ := st
  cases op with
  | solveSnap =>
    cases h : solve ls.cuts with
    | none => exact ⟨[], by simp [applyOp, h]⟩
    | some av => exact ⟨[⟨snaps.length + 1, av.1, av.2, ls.prefs⟩], by simp [applyOp, h]⟩
  | addCut c => exact ⟨[], by simp [applyOp]⟩
  | updateWeights w => exact ⟨[], by simp [applyOp]⟩

theorem runOps_append (solve : List (Finset MeetingIdx) → Option (Finset MeetingIdx × ℚ))
    (init : LiveState × List SnapResult) (ops extra : List SchedOp) :
    runOps solve init (ops ++ extra) = runOps solve (runOps solve init ops) extra := by
  unfold runOps
  exact List.foldl_append _ _ _ _

theorem runOps_take (solve : List (Finset MeetingIdx) → Option (Finset MeetingIdx × ℚ)) :
    ∀ (extra : List SchedOp) (st : LiveState × List SnapResult),
      ((runOps solve st extra).2).take st.2.length = st.2 := by
  intro extra
  induction extra with
  | nil =>
    intro st
    exact List.take_length _
  | cons op rest ih =>
    intro st
    have hst : runOps solve st (op :: rest) = runOps solve (applyOp solve st op) rest := rfl
    rw [hst]
    obtain ⟨d, hd⟩ := applyOp_snd_append solve st op
    have hlen : st.2.length ≤ (applyOp solve st op).2.length := by
      rw [hd]
      simp
    calc ((runOps solve (applyOp solve st op) rest).2).take st.2.length
        = (((runOps solve (applyOp solve st op) rest).2).take
            (applyOp solve st op).2.length).take st.2.length := by
          rw [List.take_take, Nat.min_eq_left hlen]
      _ = ((applyOp solve st op).2).take st.2.length := by rw [ih (applyOp solve st op)]
      _ = (st.2 ++ d).take st.2.length := by rw [hd]
      _ = st.2 := List.take_left _ _

/-- C9: a solution snapshot is decoupled from the live scheduler and
model: after any further sequence of mutations — more solve-and-snapshot
iterations, added no-good cuts, or weight updates — the previously
captured snapshot list is an unchanged prefix of the new one, every
field included (rank, active-meeting set, objective value, and the
context metadata copied at capture time). -/
theorem C9_snapshots_stable_under_mutation
    (solve : List (Finset MeetingIdx) → Option (Finset MeetingIdx × ℚ))
    (init : LiveState × List SnapResult) (ops extra : List SchedOp) :
    ((runOps solve init (ops ++ extra)).2).take ((runOps solve init ops).2).length
      = (runOps solve init ops).2 := by
  rw [runOps_append]
  exact runOps_take solve extra (runOps solve init ops)

end GradVisit
